import Mathlib

/-!
Shallow embedding of the two-phase PDF metric-extraction pipeline of
`src/api.py` (functions `find_relevant_pages`, `extract_page_content`,
`find_contexts`, `find_table_rows`, `prepare_snippets`, `call_ai`, and the
POST branch of `upload`), together with theorems settling the spec claims.

Text is modelled as `List Char` (`Str`); Python's `str.lower` becomes a
per-character `Char.toLower` map, substring containment (`in`) becomes
`List.IsInfix`, and slices `t[a:b]` (with non-negative clamped bounds)
become `(t.take b).drop a`.  External collaborators (PyMuPDF/pdfplumber
page access, `json.loads`, the OpenAI client) are abstracted: a document
is the list of its pages (text plus tables), the JSON parser is a
parameter `parse : Str → Option V`, and the chat-completion call is a
parameter `service` that either returns a reply text or raises
(`ServiceResponse.failure`, modelling network/auth/rate-limit
exceptions).
-/

namespace Api

/-- Python strings, modelled as lists of characters. -/
abbrev Str := List Char

/-- Python `s.lower()`, per-character (ASCII case folding, which covers the
configured keywords). -/
def lowerStr (s : Str) : Str := s.map Char.toLower

/-- Python `t[a:b]` for non-negative `a ≤ b`: both bounds clamped to the
text's length, never an error. -/
def pySlice (t : Str) (a b : Nat) : Str := (t.take b).drop a

/-- Python `sep.join(xs)`. -/
def pyJoin (sep : Str) (xs : List Str) : Str := List.intercalate sep xs

/-- Python `s.strip()`: remove leading and trailing whitespace. -/
def pyStrip (s : Str) : Str :=
  ((s.dropWhile Char.isWhitespace).reverse.dropWhile Char.isWhitespace).reverse

/-- Python `k in t` on lowered strings: case-insensitive substring
containment. -/
def containsCI (t k : Str) : Bool := decide (lowerStr k <:+: lowerStr t)

-- ————————————————————————————————————————————————————————————————————
-- Phase 1: find_relevant_pages (src/api.py lines 64-78)
-- ————————————————————————————————————————————————————————————————————

/-- The test `any(k in text.lower() for k in keyset)` with `keyset =
[k.lower() for k in keywords]`: does the page text contain some keyword
case-insensitively? -/
def pageMatches (keywords : List Str) (text : Str) : Bool :=
  (keywords.map lowerStr).any (fun k => decide (k <:+: lowerStr text))

/-- The enumerate loop of `find_relevant_pages`: `i` is the index of the
first page of `pages` in the whole document. -/
def scanHits (keywords : List Str) : List Str → Nat → List Nat
  | [], _ => []
  | p :: ps, i =>
    if pageMatches keywords p then i :: scanHits keywords ps (i + 1)
    else scanHits keywords ps (i + 1)

/-- Phase 1, `find_relevant_pages(pdf_path, keywords)` (src/api.py:64): indices of
pages whose text contains at least one keyword case-insensitively.  The
document is given as the list of its pages' extracted texts
(`page.get_text() or ""`). -/
def find_relevant_pages (pages : List Str) (keywords : List Str) : List Nat :=
  scanHits keywords pages 0

-- ————————————————————————————————————————————————————————————————————
-- Phase 2: extract_page_content (src/api.py lines 81-99)
-- ————————————————————————————————————————————————————————————————————

/-- A page as pdfplumber exposes it: `extract_text() or ""` and
`extract_tables()`, a list of tables; a table is a list of rows; a row is a
list of cells; a cell may be absent (`None`). -/
structure Page where
  text : Str
  tables : List (List (List (Option Str)))
  deriving DecidableEq, Repr

/-- Python `" | ".join(cell or "" for cell in row)` (src/api.py:97). -/
def flattenRow (row : List (Option Str)) : Str :=
  pyJoin (" | ".toList) (row.map (fun c => c.getD []))

/-- All flattened rows of one page, table order then row order. -/
def pageRows (p : Page) : List Str :=
  p.tables.flatMap (fun table => table.map flattenRow)

/-- Python list indexing `l[i]` on an `int` index: non-negative indices from
the front, negative indices from the back, `none` = `IndexError`. -/
def pyIndex (l : List α) (i : Int) : Option α :=
  if 0 ≤ i then l.get? i.toNat
  else if 0 ≤ i + l.length then l.get? (i + l.length).toNat
  else none

/-- The `for idx in hit_pages` loop of `extract_page_content`
(src/api.py:89-97): the bound check is exactly `idx < len(pdf.pages)`, and a
surviving index is used as a Python list index.  Returns the list of page
texts and the accumulated table rows, or `Except.error` for an uncaught
`IndexError`. -/
def extractLoop (pages : List Page) : List Int → Except Unit (List Str × List Str)
  | [] => .ok ([], [])
  | idx :: rest =>
    if idx < (pages.length : Int) then
      match pyIndex pages idx with
      | none => .error ()
      | some page =>
        match extractLoop pages rest with
        | .error e => .error e
        | .ok (ts, rs) => .ok (page.text :: ts, pageRows page ++ rs)
    else extractLoop pages rest

/-- Phase 2, `extract_page_content(pdf_path, hit_pages)` (src/api.py:81): heavy parse
of the flagged pages; joins the page texts with `"\n"`. -/
def extract_page_content (pages : List Page) (hit_pages : List Int) :
    Except Unit (Str × List Str) :=
  match extractLoop pages hit_pages with
  | .error e => .error e
  | .ok (ts, rs) => .ok (pyJoin ['\n'] ts, rs)

-- ————————————————————————————————————————————————————————————————————
-- Snippet assembly: find_contexts, find_table_rows, prepare_snippets
-- (src/api.py lines 102-126)
-- ————————————————————————————————————————————————————————————————————

/-- Does `re.escape(keyword)` with `re.IGNORECASE` match `text` at position
`i`?  The escaped pattern matches the literal keyword character by
character, case-insensitively, so a match at `i` is exactly: the next
`keyword.length` characters exist and agree with the keyword up to case. -/
def matchesAt (text keyword : Str) (i : Nat) : Bool :=
  decide (i + keyword.length ≤ text.length) &&
    lowerStr ((text.drop i).take keyword.length) == lowerStr keyword

/-- The scan performed by `re.finditer`: leftmost, non-overlapping matches;
after a match at `i` the scan resumes at `i + len(keyword)` (at `i + 1` for
an empty pattern, which matches at every position).  `fuel` bounds the
number of scan steps; `text.length + 1` steps always suffice. -/
def scanOccs (text keyword : Str) : Nat → Nat → List Nat
  | 0, _ => []
  | fuel + 1, i =>
    if matchesAt text keyword i then
      i :: scanOccs text keyword fuel (i + max 1 keyword.length)
    else
      scanOccs text keyword fuel (i + 1)

/-- Start positions of the matches of `re.finditer(re.escape(keyword), text,
re.IGNORECASE)`, in occurrence order. -/
def occurrences (text keyword : Str) : List Nat :=
  scanOccs text keyword (text.length + 1) 0

/-- The function `find_contexts(text, keyword, window_chars)` (src/api.py:102): for each
occurrence, the slice `text[max(0, start - window) : end + window]` with
`end = start + len(keyword)`. -/
def find_contexts (text keyword : Str) (window_chars : Nat) : List Str :=
  (occurrences text keyword).map
    (fun i => pySlice text (i - window_chars) (i + keyword.length + window_chars))

/-- The function `find_table_rows(table_rows, keyword)` (src/api.py:112): the rows that
contain the keyword case-insensitively, in row order. -/
def find_table_rows (table_rows : List Str) (keyword : Str) : List Str :=
  table_rows.filter (fun row => containsCI row keyword)

/-- One keyword's contribution to the snippet list: its context windows,
then its matching table rows. -/
def contribution (text : Str) (table_rows : List Str) (window_chars : Nat)
    (kw : Str) : List Str :=
  find_contexts text kw window_chars ++ find_table_rows table_rows kw

/-- The keyword loop of `prepare_snippets` (src/api.py:120-124): extend the
accumulator with the keyword's contexts and matching rows, and break as soon
as the running total reaches `max_snippets`. -/
def prepLoop (text : Str) (table_rows : List Str) (window_chars max_snippets : Nat) :
    List Str → List Str → List Str
  | [], acc => acc
  | kw :: kws, acc =>
    let acc' := acc ++ contribution text table_rows window_chars kw
    if max_snippets ≤ acc'.length then acc'
    else prepLoop text table_rows window_chars max_snippets kws acc'

/-- The function `prepare_snippets(raw_text, table_rows, max_snippets)` (src/api.py:117).
The source reads the keyword list from the module-level `KEYWORDS` and uses
the default `window_chars=200` of `find_contexts`; both are parameters here.  The
final `snippets[:max_snippets]` is the `take`. -/
def prepare_snippets (raw_text : Str) (table_rows : List Str)
    (keywords : List Str) (window_chars max_snippets : Nat) : List Str :=
  (prepLoop raw_text table_rows window_chars max_snippets keywords []).take max_snippets

-- ————————————————————————————————————————————————————————————————————
-- call_ai (src/api.py lines 129-151) and the upload pipeline (156-195)
-- ————————————————————————————————————————————————————————————————————

/-- A chat-completion call either returns the reply's text content or raises
(network/auth/rate-limit — any exception from `client.chat.completions.create`). -/
inductive ServiceResponse where
  | reply (text : Str)
  | failure
  deriving DecidableEq, Repr

/-- The per-keyword outcome stored in the results mapping: the parsed JSON
value (of abstract JSON type `V`), or the fallback object built on
`json.JSONDecodeError`, whose `error` field holds the marker
`"Invalid JSON"` and whose `raw` field holds the text that failed to
parse. -/
inductive MetricRecord (V : Type) where
  | parsed (v : V)
  | invalidJson (error : Str) (raw : Str)
  deriving DecidableEq, Repr

/-- The system message of the chat call (src/api.py:140). -/
def systemMsg : Str := "You are a financial data extractor.".toList

/-- The user prompt built by `call_ai` (src/api.py:132-136). -/
def mkPrompt (kw : Str) (snippets : List Str) : Str :=
  "Extract the value, unit & year for \x27".toList ++ kw ++
    "\x27 from the snippets below. Reply ONLY with JSON: \x7b\"metric\":...,\"value\":...,\"unit\":...,\"year\":...\x7d\n\n".toList ++
    pyJoin ("\n---\n".toList) snippets

/-- The parse stage of `call_ai` (src/api.py:144-151): strip the reply,
attempt `json.loads` (the parameter `parse`), and on failure return the
error record carrying the attempted text.  Total: the only exception
`json.loads` raises on a string is `JSONDecodeError`, which is caught. -/
def parseAiReply (parse : Str → Option V) (reply : Str) : MetricRecord V :=
  let text := pyStrip reply
  match parse text with
  | some v => .parsed v
  | none => .invalidJson ("Invalid JSON".toList) text

/-- The function `call_ai(kw, snippets)` (src/api.py:129): build the prompt, invoke the
service, parse the reply.  A `ServiceResponse.failure` is not caught by any
handler in `call_ai`, so it propagates (`Except.error`). -/
def call_ai (parse : Str → Option V) (service : Str → Str → ServiceResponse)
    (kw : Str) (snippets : List Str) : Except Unit (MetricRecord V) :=
  match service systemMsg (mkPrompt kw snippets) with
  | .failure => .error ()
  | .reply r => .ok (parseAiReply parse r)

/-- The dict comprehension mapping each `kw` of `KEYWORDS` to
`call_ai(kw, snippets)` (src/api.py:184), evaluated left to right.  Also returns the trace of
keywords for which a service call was issued; an uncaught exception aborts
the comprehension, so later keywords are never called. -/
def resolveAll (parse : Str → Option V) (service : Str → Str → ServiceResponse)
    (snippets : List Str) :
    List Str → Except Unit (List (Str × MetricRecord V)) × List Str
  | [] => (.ok [], [])
  | kw :: kws =>
    match call_ai parse service kw snippets with
    | .error e => (.error e, [kw])
    | .ok r =>
      match resolveAll parse service snippets kws with
      | (.error e, tr) => (.error e, kw :: tr)
      | (.ok rs, tr) => (.ok ((kw, r) :: rs), kw :: tr)

/-- Outcome of the POST branch of `upload` (src/api.py:174-195), after the
file has been saved: the "No relevant pages found." flash-and-redirect, an
uncaught exception from phase 2 or from a service call, or the results
mapping persisted to the database. -/
inductive UploadResult (V : Type) where
  | noRelevantPages
  | extractionError
  | serviceError
  | stored (results : List (Str × MetricRecord V))
  deriving DecidableEq, Repr

/-- The configured keyword list `KEYWORDS` (src/api.py:29-32). -/
def KEYWORDS : List Str :=
  ["Total Assets".toList, "Total Liabilities".toList, "Intangible Assets".toList,
   "Profit before Tax".toList, "Cash and balances at central banks".toList]

/-- The two-phase pipeline of `upload`'s POST branch (src/api.py:174-195):
scan, early return on no hits, extract, assemble snippets (budget 20,
window 200), resolve every keyword, store.  The second component is the
trace of keywords for which the extraction service was invoked. -/
def upload (parse : Str → Option V) (service : Str → Str → ServiceResponse)
    (keywords : List Str) (pages : List Page) : UploadResult V × List Str :=
  let hit_pages := find_relevant_pages (pages.map Page.text) keywords
  if hit_pages = [] then (.noRelevantPages, [])
  else
    match extract_page_content pages (hit_pages.map Int.ofNat) with
    | .error _ => (.extractionError, [])
    | .ok (raw_text, table_rows) =>
      let snippets := prepare_snippets raw_text table_rows keywords 200 20
      match resolveAll parse service snippets keywords with
      | (.error _, tr) => (.serviceError, tr)
      | (.ok rs, tr) => (.stored rs, tr)

-- ————————————————————————————————————————————————————————————————————
-- Lemmas about the page scan
-- ————————————————————————————————————————————————————————————————————

theorem scanHits_sublist (keywords : List Str) (ps : List Str) (i : Nat) :
    List.Sublist (scanHits keywords ps i) (List.range' i ps.length) := by
  induction ps generalizing i with
  | nil => simp [scanHits]
  | cons p ps ih =>
    simp only [scanHits, List.length_cons, List.range'_succ]
    by_cases h : pageMatches keywords p
    · simpa [h] using List.Sublist.cons₂ i (ih (i + 1))
    · simpa [h] using List.Sublist.cons i (ih (i + 1))

theorem scanHits_eq_nil_iff (keywords : List Str) (ps : List Str) (i : Nat) :
    scanHits keywords ps i = [] ↔ ∀ p ∈ ps, pageMatches keywords p = false := by
  induction ps generalizing i with
  | nil => simp [scanHits]
  | cons p ps ih =>
    by_cases h : pageMatches keywords p
    · simp [scanHits, h]
    · simp only [scanHits, h, if_neg, Bool.not_eq_true, List.mem_cons]
      rw [ih (i + 1)]
      constructor
      · rintro hall q (rfl | hq)
        · simpa using h
        · exact hall q hq
      · intro hall q hq
        exact hall q (Or.inr hq)

theorem pageMatches_iff (keywords : List Str) (text : Str) :
    pageMatches keywords text = true ↔
      ∃ k ∈ keywords, lowerStr k <:+: lowerStr text := by
  simp only [pageMatches, List.any_eq_true, List.mem_map, decide_eq_true_eq]
  constructor
  · rintro ⟨lk, ⟨k, hk, rfl⟩, hinf⟩
    exact ⟨k, hk, hinf⟩
  · rintro ⟨k, hk, hinf⟩
    exact ⟨lowerStr k, ⟨k, hk, rfl⟩, hinf⟩

/-- C1: `find_relevant_pages` returns page indices that are strictly
increasing, duplicate-free, a subsequence of `[0, pageCount)`, and empty
exactly when no page's text contains any keyword as a case-insensitive
substring. -/
theorem find_relevant_pages_spec (pages keywords : List Str)
    (_hk : keywords ≠ []) :
    (find_relevant_pages pages keywords).Pairwise (· < ·) ∧
    (find_relevant_pages pages keywords).Nodup ∧
    List.Sublist (find_relevant_pages pages keywords) (List.range pages.length) ∧
    (find_relevant_pages pages keywords = [] ↔
      ∀ p ∈ pages, ∀ k ∈ keywords, ¬ lowerStr k <:+: lowerStr p) := by
  have hsub : List.Sublist (find_relevant_pages pages keywords)
      (List.range pages.length) := by
    rw [List.range_eq_range' pages.length]
    exact scanHits_sublist keywords pages 0
  have hpw : (find_relevant_pages pages keywords).Pairwise (· < ·) := by
    have : (List.range pages.length).Pairwise (· < ·) := by
      rw [List.range_eq_range' pages.length]
      exact List.pairwise_lt_range' 0 pages.length
    exact this.sublist hsub
  refine ⟨hpw, hpw.nodup, hsub, ?_⟩
  rw [find_relevant_pages, scanHits_eq_nil_iff]
  constructor
  · intro hall p hp k hkk hinf
    have := hall p hp
    rw [← Bool.not_eq_true, pageMatches_iff] at this
    exact this ⟨k, hkk, hinf⟩
  · intro hall p hp
    rw [← Bool.not_eq_true, pageMatches_iff]
    rintro ⟨k, hkk, hinf⟩
    exact hall p hp k hkk hinf

/-- Witness for C1 on a concrete two-page document and the nonempty keyword
list `["Total Assets"]`: page 1 matches, so the scan result `[1]` is
strictly increasing, duplicate-free, a subsequence of `[0, 2)`, and
nonempty. -/
theorem find_relevant_pages_spec_witness :
    (["Total Assets".toList] : List Str) ≠ [] ∧
    ((find_relevant_pages ["intro".toList, "the total assets line".toList]
        ["Total Assets".toList]).Pairwise (· < ·) ∧
     (find_relevant_pages ["intro".toList, "the total assets line".toList]
        ["Total Assets".toList]).Nodup ∧
     List.Sublist (find_relevant_pages ["intro".toList, "the total assets line".toList]
        ["Total Assets".toList]) (List.range 2) ∧
     (find_relevant_pages ["intro".toList, "the total assets line".toList]
        ["Total Assets".toList] = [] ↔
       ∀ p ∈ (["intro".toList, "the total assets line".toList] : List Str),
         ∀ k ∈ (["Total Assets".toList] : List Str),
           ¬ lowerStr k <:+: lowerStr p)) :=
  ⟨by decide, find_relevant_pages_spec _ _ (by decide)⟩

-- ————————————————————————————————————————————————————————————————————
-- Lemmas about content extraction
-- ————————————————————————————————————————————————————————————————————

theorem pyIndex_ofNat_lt (l : List α) (i : Nat) (d : α) (h : i < l.length) :
    pyIndex l (Int.ofNat i) = some (l.getD i d) := by
  simp [pyIndex, List.getD_eq_getElem?_getD, List.getElem?_eq_getElem h,
    List.get?_eq_getElem?]

theorem extractLoop_ofNat (pages : List Page) (hits : List Nat) :
    extractLoop pages (hits.map Int.ofNat) =
      .ok ((hits.filter (· < pages.length)).map
             (fun i => (pages.getD i ⟨[], []⟩).text),
           (hits.filter (· < pages.length)).flatMap
             (fun i => pageRows (pages.getD i ⟨[], []⟩))) := by
  induction hits with
  | nil => simp [extractLoop]
  | cons i rest ih =>
    by_cases h : i < pages.length
    · have hcast : (Int.ofNat i) < (pages.length : Int) := Int.ofNat_lt.mpr h
      simp only [List.map_cons, extractLoop, if_pos hcast,
        pyIndex_ofNat_lt pages i ⟨[], []⟩ h, ih, List.filter_cons,
        decide_eq_true h, if_pos, List.map_cons, List.flatMap_cons]
    · have hcast : ¬ (Int.ofNat i) < (pages.length : Int) := by
        simpa using h
      simp only [List.map_cons, extractLoop, if_neg hcast, ih,
        List.filter_cons, decide_eq_false h, if_neg, Bool.false_eq_true,
        not_false_eq_true]

/-- C3 counterexample: the bound check in `extract_page_content` is only
`idx < len(pdf.pages)`, so on a one-page document the out-of-range index
`-1` is NOT skipped — it is processed as the Python end-relative index of
the last page and contributes its text — and the out-of-range index `-2`
raises an uncaught `IndexError` instead of being skipped. -/
theorem extract_page_content_counterexample :
    extract_page_content [⟨"A".toList, []⟩] [(-1 : Int)] ≠
        Except.ok (([] : Str), ([] : List Str)) ∧
    extract_page_content [⟨"A".toList, []⟩] [(-1 : Int)] =
        Except.ok ("A".toList, ([] : List Str)) ∧
    extract_page_content [⟨"A".toList, []⟩] [(-2 : Int)] = Except.error () := by
  refine ⟨?_, rfl, rfl⟩
  intro h
  have := congrArg (fun e => e.map (fun p => p.1.length)) h
  simp only [Except.map] at this
  exact absurd (Except.ok.inj this) (by decide)

/-- C3 (amended to non-negative index lists): for every document and every
list of non-negative page indices, content extraction never fails, each
index `≥ pageCount` is silently skipped and contributes no entry, and
exactly the in-range indices are processed, in the order given: the
returned text is the `"\n"`-join of the texts of the in-range indices'
pages and the returned rows are their flattened table rows, in that same
order. -/
theorem extract_page_content_nonneg (pages : List Page) (hits : List Nat) :
    extract_page_content pages (hits.map Int.ofNat) =
      Except.ok
        (pyJoin ['\n'] ((hits.filter (· < pages.length)).map
            (fun i => (pages.getD i ⟨[], []⟩).text)),
         (hits.filter (· < pages.length)).flatMap
            (fun i => pageRows (pages.getD i ⟨[], []⟩))) := by
  rw [extract_page_content, extractLoop_ofNat]

-- ————————————————————————————————————————————————————————————————————
-- Lemmas about snippet assembly
-- ————————————————————————————————————————————————————————————————————

/-- Truncating the loop's output to the budget erases the early break: the
result is the truncation of the full concatenation of per-keyword
contributions.  The break only fires once the accumulator already holds at
least `max_snippets` entries, and everything before the break is a prefix
of the full concatenation. -/
theorem prepLoop_take (text : Str) (table_rows : List Str)
    (window_chars max_snippets : Nat) :
    ∀ (kws : List Str) (acc : List Str),
      (prepLoop text table_rows window_chars max_snippets kws acc).take max_snippets =
        (acc ++ kws.flatMap (contribution text table_rows window_chars)).take
          max_snippets := by
  intro kws
  induction kws with
  | nil => intro acc; simp [prepLoop]
  | cons kw kws ih =>
    intro acc
    simp only [prepLoop, List.flatMap_cons]
    by_cases h : max_snippets ≤ (acc ++ contribution text table_rows window_chars kw).length
    · rw [if_pos h, ← List.append_assoc,
        List.take_append_of_le_length h]
    · rw [if_neg h, ih, List.append_assoc]

/-- The function `prepare_snippets` equals the budget-truncation of the concatenation,
over keywords in declared order, of each keyword's context windows followed
by its matching table rows. -/
theorem prepare_snippets_eq (text : Str) (table_rows : List Str)
    (keywords : List Str) (window_chars max_snippets : Nat) :
    prepare_snippets text table_rows keywords window_chars max_snippets =
      (keywords.flatMap (contribution text table_rows window_chars)).take
        max_snippets := by
  rw [prepare_snippets, prepLoop_take, List.nil_append]

/-- C8: the assembled snippet list is ordered by keyword priority (declared
order), then within each keyword by occurrence order of the context windows
followed by row order of the matching table rows: it is the budget-truncated
concatenation, in keyword order, of `find_contexts` then `find_table_rows`
output. -/
theorem prepare_snippets_order (text : Str) (table_rows : List Str)
    (keywords : List Str) (window_chars max_snippets : Nat) :
    prepare_snippets text table_rows keywords window_chars max_snippets =
      (keywords.flatMap
        (fun kw => find_contexts text kw window_chars ++
          find_table_rows table_rows kw)).take max_snippets :=
  prepare_snippets_eq text table_rows keywords window_chars max_snippets

/-- C2: snippet assembly returns at most `max_snippets` entries; once the
running total over the first `n` keywords reaches the budget, the result is
already determined by those first `n` keywords (no later keyword
contributes); and when the total contribution overshoots the budget the
final list has exactly `max_snippets` entries. -/
theorem prepare_snippets_budget (text : Str) (table_rows : List Str)
    (keywords : List Str) (window_chars max_snippets : Nat) :
    (prepare_snippets text table_rows keywords window_chars max_snippets).length ≤
        max_snippets ∧
    (∀ n, max_snippets ≤
        ((keywords.take n).flatMap (contribution text table_rows window_chars)).length →
      prepare_snippets text table_rows keywords window_chars max_snippets =
        ((keywords.take n).flatMap (contribution text table_rows window_chars)).take
          max_snippets) ∧
    (max_snippets ≤
        (keywords.flatMap (contribution text table_rows window_chars)).length →
      (prepare_snippets text table_rows keywords window_chars max_snippets).length =
        max_snippets) := by
  refine ⟨?_, ?_, ?_⟩
  · rw [prepare_snippets_eq]
    simp [List.length_take]
  · intro n hn
    rw [prepare_snippets_eq]
    conv_lhs => rw [← List.take_append_drop n keywords]
    rw [List.flatMap_append, List.take_append_of_le_length hn]
  · intro h
    rw [prepare_snippets_eq]
    simp only [List.length_take]
    omega

/-- Witness for C2 at a concrete input: text `"a kw b kw c"`, no table
rows, keyword list `["kw"]`, window 1, budget 2.  The single keyword's
contribution (two context windows) already reaches the budget, and the
assembled list is the budget-truncation of that first keyword's
contribution. -/
theorem prepare_snippets_budget_witness :
    2 ≤ (((["kw".toList] : List Str).take 1).flatMap
          (contribution ("a kw b kw c".toList) [] 1)).length ∧
    prepare_snippets ("a kw b kw c".toList) [] ["kw".toList] 1 2 =
      (((["kw".toList] : List Str).take 1).flatMap
          (contribution ("a kw b kw c".toList) [] 1)).take 2 :=
  ⟨by decide, (prepare_snippets_budget ("a kw b kw c".toList) [] ["kw".toList] 1 2).2.1 1
    (by decide)⟩

/-- C9: snippet assembly is deterministic: two runs on equal extracted
text, equal table rows, equal keyword lists, equal window radius and equal
budget produce identical snippet lists.  The embedded code is a pure
function of these five inputs — `re.finditer`, list concatenation and
truncation have no hidden state. -/
theorem prepare_snippets_deterministic (t₁ t₂ : Str) (r₁ r₂ : List Str)
    (k₁ k₂ : List Str) (w₁ w₂ b₁ b₂ : Nat)
    (ht : t₁ = t₂) (hr : r₁ = r₂) (hk : k₁ = k₂) (hw : w₁ = w₂) (hb : b₁ = b₂) :
    prepare_snippets t₁ r₁ k₁ w₁ b₁ = prepare_snippets t₂ r₂ k₂ w₂ b₂ := by
  rw [ht, hr, hk, hw, hb]

/-- Witness for C9 at a concrete input: two runs on the same text, rows,
keywords, window and budget coincide. -/
theorem prepare_snippets_deterministic_witness :
    prepare_snippets ("total assets 5".toList) ["r1".toList]
        ["Total Assets".toList] 200 20 =
      prepare_snippets ("total assets 5".toList) ["r1".toList]
        ["Total Assets".toList] 200 20 :=
  prepare_snippets_deterministic _ _ _ _ _ _ _ _ _ _ rfl rfl rfl rfl rfl

-- ————————————————————————————————————————————————————————————————————
-- Lemmas about context windows
-- ————————————————————————————————————————————————————————————————————

/-- C4: every context window spans from `window_chars` before the match
start to `window_chars` after the match end, clamped to the text's bounds:
it is a contiguous substring of the text (no out-of-range slicing) of
length at most `2 * window_chars + keyword.length`. -/
theorem find_contexts_window_bound (text keyword : Str) (window_chars : Nat) :
    ∀ c ∈ find_contexts text keyword window_chars,
      c.length ≤ 2 * window_chars + keyword.length ∧ c <:+: text := by
  intro c hc
  rw [find_contexts, List.mem_map] at hc
  obtain ⟨i, _, rfl⟩ := hc
  constructor
  · simp only [pySlice, List.length_drop, List.length_take]
    omega
  · exact ((List.drop_suffix _ _).isInfix).trans (( List.take_prefix _ _).isInfix)

/-- Witness for C4 at a concrete input: in `"a kw b"` with keyword `"kw"`
and window 1, the produced window `" kw "` has length `4 ≤ 2*1 + 2` and is
a substring of the text. -/
theorem find_contexts_window_bound_witness :
    " kw ".toList.length ≤ 2 * 1 + "kw".toList.length ∧
      " kw ".toList <:+: "a kw b".toList :=
  find_contexts_window_bound ("a kw b".toList) ("kw".toList) 1 (" kw ".toList)
    (by decide)

/-- Every position recorded by the `re.finditer` scan is a genuine match
position. -/
theorem matchesAt_of_mem_scanOccs (text keyword : Str) :
    ∀ (fuel i0 : Nat) (i : Nat), i ∈ scanOccs text keyword fuel i0 →
      matchesAt text keyword i = true := by
  intro fuel
  induction fuel with
  | zero => intro i0 i h; simp [scanOccs] at h
  | succ fuel ih =>
    intro i0 i h
    rw [scanOccs] at h
    by_cases hm : matchesAt text keyword i0
    · rw [if_pos hm] at h
      rcases List.mem_cons.mp h with rfl | h
      · exact hm
      · exact ih _ i h
    · rw [if_neg hm] at h
      exact ih _ i h

/-- A match at `i` makes the lowered keyword an infix of the lowered
window: the window slice decomposes as `pre ++ occurrence ++ post`, and the
occurrence lowers to the lowered keyword. -/
theorem lower_infix_window (text keyword : Str) (i window_chars : Nat)
    (h : matchesAt text keyword i = true) :
    lowerStr keyword <:+:
      lowerStr (pySlice text (i - window_chars)
        (i + keyword.length + window_chars)) := by
  have hmatch : lowerStr ((text.drop i).take keyword.length) = lowerStr keyword := by
    have := (Bool.and_eq_true _ _).mp h
    exact eq_of_beq this.2
  set a := i - window_chars with ha
  have haux : i + keyword.length + window_chars - a =
      (i - a) + (keyword.length + window_chars) := by omega
  have hwindow : pySlice text a (i + keyword.length + window_chars) =
      (text.drop a).take (i - a) ++
        ((text.drop i).take keyword.length ++
          ((text.drop i).drop keyword.length).take window_chars) := by
    rw [pySlice, List.drop_take, haux, List.take_add, List.drop_drop]
    have : a + (i - a) = i := by omega
    rw [this, List.take_add]
  rw [hwindow]
  refine ⟨lowerStr ((text.drop a).take (i - a)),
    lowerStr (((text.drop i).drop keyword.length).take window_chars), ?_⟩
  simp only [lowerStr, List.map_append, List.append_assoc] at hmatch ⊢
  rw [hmatch]

/-- C10: every snippet in the assembled output contains at least one
keyword of the keyword list as a case-insensitive substring: a context
window contains the matched occurrence of its keyword, and a table row is
only included when it contains its keyword case-insensitively. -/
theorem prepare_snippets_contain_keyword (text : Str) (table_rows : List Str)
    (keywords : List Str) (window_chars max_snippets : Nat) :
    ∀ s ∈ prepare_snippets text table_rows keywords window_chars max_snippets,
      ∃ kw ∈ keywords, lowerStr kw <:+: lowerStr s := by
  intro s hs
  rw [prepare_snippets_eq] at hs
  have hs' := List.mem_of_mem_take hs
  rw [List.mem_flatMap] at hs'
  obtain ⟨kw, hkw, hmem⟩ := hs'
  refine ⟨kw, hkw, ?_⟩
  rw [contribution, List.mem_append] at hmem
  rcases hmem with hctx | hrow
  · rw [find_contexts, List.mem_map] at hctx
    obtain ⟨i, hi, rfl⟩ := hctx
    exact lower_infix_window text kw i window_chars
      (matchesAt_of_mem_scanOccs text kw _ _ i hi)
  · have := List.of_mem_filter hrow
    rw [containsCI, decide_eq_true_eq] at this
    exact this

/-- Witness for C10 at a concrete input: the single assembled snippet
`" kw "` of text `"a kw b"` for keyword list `["KW"]` contains `"KW"`
case-insensitively. -/
theorem prepare_snippets_contain_keyword_witness :
    ∃ kw ∈ (["KW".toList] : List Str), lowerStr kw <:+: lowerStr (" kw ".toList) :=
  prepare_snippets_contain_keyword ("a kw b".toList) [] ["KW".toList] 1 20
    (" kw ".toList) (by decide)

-- ————————————————————————————————————————————————————————————————————
-- Lemmas about the resolver and the upload pipeline
-- ————————————————————————————————————————————————————————————————————

/-- C5 counterexample: the code strips the reply before parsing
(src/api.py:144), so for the unparseable reply `" not json"` (leading
space) the error record carries `"not json"`, not the verbatim reply text
`" not json"` the claim demands. -/
theorem call_ai_raw_not_verbatim :
    call_ai (V := Unit) (fun _ => none)
        (fun _ _ => ServiceResponse.reply (" not json".toList))
        "Total Assets".toList [] =
      Except.ok (MetricRecord.invalidJson ("Invalid JSON".toList) ("not json".toList)) ∧
    call_ai (V := Unit) (fun _ => none)
        (fun _ _ => ServiceResponse.reply (" not json".toList))
        "Total Assets".toList [] ≠
      Except.ok (MetricRecord.invalidJson ("Invalid JSON".toList) (" not json".toList)) := by
  refine ⟨rfl, ?_⟩
  intro h
  rw [show call_ai (V := Unit) (fun _ => none)
      (fun _ _ => ServiceResponse.reply (" not json".toList))
      "Total Assets".toList [] =
    Except.ok (MetricRecord.invalidJson ("Invalid JSON".toList) ("not json".toList))
    from rfl] at h
  exact absurd (MetricRecord.invalidJson.inj (Except.ok.inj h)).2 (by decide)

/-- C5 (amended: the raw text is the reply stripped of leading and trailing
whitespace, hence verbatim exactly when the reply has none): whenever the
service returns a reply whose stripped text fails to parse as JSON, the
resolver returns — never throws — an error MetricRecord carrying the
`"Invalid JSON"` marker and that stripped reply text. -/
theorem call_ai_parse_failure {V : Type} (parse : Str → Option V)
    (service : Str → Str → ServiceResponse) (kw : Str) (snippets : List Str)
    (reply : Str)
    (hr : service systemMsg (mkPrompt kw snippets) = ServiceResponse.reply reply)
    (hp : parse (pyStrip reply) = none) :
    call_ai parse service kw snippets =
      Except.ok (MetricRecord.invalidJson ("Invalid JSON".toList) (pyStrip reply)) := by
  simp only [call_ai, hr, parseAiReply, hp]

/-- Witness for C5's amended theorem at a concrete input: a parser
rejecting everything and the reply `"not json"` yield the error record with
marker `"Invalid JSON"` and raw text `"not json"`. -/
theorem call_ai_parse_failure_witness :
    call_ai (V := Unit) (fun _ => none)
        (fun _ _ => ServiceResponse.reply ("not json".toList))
        "Total Assets".toList [] =
      Except.ok (MetricRecord.invalidJson ("Invalid JSON".toList)
        (pyStrip ("not json".toList))) :=
  call_ai_parse_failure (fun _ => none)
    (fun _ _ => ServiceResponse.reply ("not json".toList))
    "Total Assets".toList [] "not json".toList rfl rfl

/-- C6 counterexample: with a service whose calls fail (network/auth/
rate-limit) and the matching two-keyword document below, the pipeline does
NOT capture the failure in the first keyword's record: the exception
propagates, the run ends in `serviceError` with no stored mapping, and the
second keyword `"yo"` is never called (it is not in the call trace). -/
theorem upload_service_failure_aborts :
    upload (V := Unit) (fun _ => none) (fun _ _ => ServiceResponse.failure)
        ["hi".toList, "yo".toList] [⟨"hi yo".toList, []⟩] =
      (UploadResult.serviceError, ["hi".toList]) ∧
    "yo".toList ∉ (upload (V := Unit) (fun _ => none)
        (fun _ _ => ServiceResponse.failure)
        ["hi".toList, "yo".toList] [⟨"hi yo".toList, []⟩]).2 := by
  constructor
  · rfl
  · rw [show (upload (V := Unit) (fun _ => none)
        (fun _ _ => ServiceResponse.failure)
        ["hi".toList, "yo".toList] [⟨"hi yo".toList, []⟩]).2 =
        [ "hi".toList] from rfl]
    decide

/-- When no service call raises, the dict comprehension resolves every
keyword, in order, issuing exactly one call per keyword. -/
theorem resolveAll_no_failure {V : Type} (parse : Str → Option V)
    (service : Str → Str → ServiceResponse) (snippets : List Str)
    (hs : ∀ sys p, service sys p ≠ ServiceResponse.failure) :
    ∀ kws : List Str, ∃ rs, resolveAll parse service snippets kws = (.ok rs, kws) ∧
      rs.map Prod.fst = kws := by
  intro kws
  induction kws with
  | nil => exact ⟨[], rfl, rfl⟩
  | cons kw kws ih =>
    obtain ⟨rs, hrs, hfst⟩ := ih
    cases hsr : service systemMsg (mkPrompt kw snippets) with
    | failure => exact absurd hsr (hs _ _)
    | reply r =>
      refine ⟨(kw, parseAiReply parse r) :: rs, ?_, ?_⟩
      · rw [resolveAll, call_ai, hsr, hrs]
      · rw [List.map_cons, hfst]

/-- C6 (amended: per-keyword capture holds only for parse failures; a
service-call error instead propagates and aborts the run, as the
counterexample shows): whenever no service call raises and the scan found
at least one page, the pipeline completes with a stored mapping holding
exactly one MetricRecord per configured keyword, in keyword order, having
called the service once per keyword. -/
theorem upload_one_record_per_keyword {V : Type} (parse : Str → Option V)
    (service : Str → Str → ServiceResponse) (keywords : List Str)
    (pages : List Page)
    (hs : ∀ sys p, service sys p ≠ ServiceResponse.failure)
    (hmatch : find_relevant_pages (pages.map Page.text) keywords ≠ []) :
    ∃ rs, upload parse service keywords pages = (UploadResult.stored rs, keywords) ∧
      rs.map Prod.fst = keywords := by
  simp only [upload]
  rw [if_neg hmatch]
  simp only [extract_page_content, extractLoop_ofNat]
  obtain ⟨rs, hrs, hfst⟩ := resolveAll_no_failure parse service _ hs keywords
  exact ⟨rs, by rw [hrs], hfst⟩

/-- Witness for C6's amended theorem at a concrete input: a never-failing
service and a one-page document matching the single keyword `"hi"` produce
a stored mapping with exactly that one keyword. -/
theorem upload_one_record_per_keyword_witness :
    ∃ rs, upload (V := Unit) (fun _ => none)
        (fun _ _ => ServiceResponse.reply ("x".toList))
        ["hi".toList] [⟨"hi".toList, []⟩] =
          (UploadResult.stored rs, ["hi".toList]) ∧
      rs.map Prod.fst = ["hi".toList] :=
  upload_one_record_per_keyword (fun _ => none)
    (fun _ _ => ServiceResponse.reply ("x".toList)) ["hi".toList]
    [⟨"hi".toList, []⟩]
    (fun _ _ h => ServiceResponse.noConfusion h) (by decide)

/-- C7: on a document in which no page matches any keyword, the pipeline
halts right after the scan with the explicit `noRelevantPages` signal — a
constructor distinct from the error outcomes and from `stored`, so nothing
is persisted — and the service-call trace is empty: the extraction service
is never invoked. -/
theorem upload_empty_scan {V : Type} (parse : Str → Option V)
    (service : Str → Str → ServiceResponse) (keywords : List Str)
    (pages : List Page)
    (h : ∀ p ∈ pages, pageMatches keywords p.text = false) :
    upload parse service keywords pages = (UploadResult.noRelevantPages, []) := by
  rw [upload]
  rw [if_pos]
  rw [find_relevant_pages, scanHits_eq_nil_iff]
  intro t ht
  rw [List.mem_map] at ht
  obtain ⟨p, hp, rfl⟩ := ht
  exact h p hp

/-- Witness for C7 at a concrete input: a one-page document with no
keyword occurrence yields the `noRelevantPages` outcome with an empty
service-call trace. -/
theorem upload_empty_scan_witness :
    upload (V := Unit) (fun _ => none)
        (fun _ _ => ServiceResponse.reply ("x".toList))
        ["Total Assets".toList] [⟨"zzz".toList, []⟩] =
      (UploadResult.noRelevantPages, []) :=
  upload_empty_scan (fun _ => none) (fun _ _ => ServiceResponse.reply ("x".toList))
    ["Total Assets".toList] [⟨"zzz".toList, []⟩] (by decide)

end Api
